import Mathlib

/-!
Shallow embedding of the `patrol` rate-limiter core (bucket.go, repo.go):
the token-bucket CRDT (`Bucket`, `Rate`, `Take`, `Merge`), its binary wire
format, and the local/replicated repositories.

Modelling conventions:
* Go `float64` values (`added`, `taken`, token arithmetic) are modelled as
  exact rationals `ℚ`; the spec itself phrases the algorithm over real
  numbers ("Let capacity = rate.Freq (as real number)").
* `time.Time` and `time.Duration` are modelled as `ℤ` nanosecond counts
  (Go stores both as 64-bit nanosecond integers).
* Go's `uint64(f)` float-to-integer conversion truncates toward zero for
  in-range values; `truncToZero` models that (the conversion is not defined
  by the Go spec outside `[0, 2^64)`).
* For the wire format, `math.Float64bits`/`Float64frombits` form a bijection
  between `float64` values and their 64-bit patterns, and `uint64(d)` /
  `time.Duration(u)` between durations and 64-bit patterns, so serialization
  is modelled on a `WireBucket` carrying the 64-bit patterns as `ℕ < 2^64`
  and the name as a list of bytes.
-/

namespace Patrol

/-- Go's `uint64(f)` conversion on a non-negative in-range value truncates the
fractional part (toward zero). -/
def truncToZero (q : ℚ) : ℤ :=
  if 0 ≤ q then ⌊q⌋ else ⌈q⌉

/-- `Rate` (bucket.go): `Freq int; Per time.Duration`. -/
structure Rate where
  Freq : ℤ
  Per : ℤ
deriving DecidableEq

/-- `Rate.IsZero` (bucket.go): `r.Freq == 0 || r.Per == 0`. -/
def Rate.IsZero (r : Rate) : Bool :=
  r.Freq == 0 || r.Per == 0

/-- `Rate.Interval` (bucket.go): `r.Per / time.Duration(r.Freq)`.
Go's integer division truncates toward zero, hence `Int.tdiv`.
(Go would panic on `Freq == 0`; every call site guards with `IsZero` first.) -/
def Rate.Interval (r : Rate) : ℤ :=
  r.Per.tdiv r.Freq

/-- `Rate.Tokens` (bucket.go): `0` when the rate is zero or the interval is
zero, else `float64(d) / float64(interval)`. -/
def Rate.Tokens (r : Rate) (d : ℤ) : ℚ :=
  if r.IsZero then 0
  else if r.Interval = 0 then 0
  else (d : ℚ) / (r.Interval : ℚ)

/-- `Bucket` (bucket.go): name, added, taken, elapsed, created.
The mutex is concurrency plumbing and has no sequential meaning. -/
structure Bucket where
  name : String
  added : ℚ
  taken : ℚ
  elapsed : ℤ
  created : ℤ
deriving DecidableEq

/-- `Bucket.IsZero` (bucket.go): `added == 0 && taken == 0 && elapsed == 0`. -/
def Bucket.IsZero (b : Bucket) : Bool :=
  if b.added = 0 ∧ b.taken = 0 ∧ b.elapsed = 0 then true else false

/-- Seed step of `Bucket.Take` (bucket.go): `capacity := float64(r.Freq);
if b.added == 0 { b.added = capacity }`. -/
def Bucket.seeded (b : Bucket) (r : Rate) : Bucket :=
  if b.added = 0 then { b with added := (r.Freq : ℚ) } else b

/-- `last` in `Bucket.Take` (bucket.go): `last := b.created.Add(b.elapsed);
if now.Before(last) { last = now }`. -/
def Bucket.lastTake (b : Bucket) (now : ℤ) : ℤ :=
  if now < b.created + b.elapsed then now else b.created + b.elapsed

/-- Capped refill of `Bucket.Take` (bucket.go), computed on the (already
seeded) bucket: `added := r.Tokens(elapsed);
if missing := capacity - tokens; added > missing { added = missing }`.
Note the cap is applied whenever `added > missing`, so the result is
negative when the bucket holds more than `capacity` tokens. -/
def Bucket.refill (b : Bucket) (now : ℤ) (r : Rate) : ℚ :=
  let tokens := b.added - b.taken
  let a := r.Tokens (now - b.lastTake now)
  if a > (r.Freq : ℚ) - tokens then (r.Freq : ℚ) - tokens else a

/-- `Bucket.Take` (bucket.go). Returns the post-state bucket, the remaining
count as returned (`uint64` conversion modelled by `truncToZero`) and the
admit verdict. On deny the post-state is the seeded bucket (the seed
assignment happens on `b` itself before the deny check). -/
def Bucket.Take (b : Bucket) (now : ℤ) (r : Rate) (n : ℕ) : Bucket × ℤ × Bool :=
  let sb := b.seeded r
  let tokens := sb.added - sb.taken
  let elapsed := now - sb.lastTake now
  let added := sb.refill now r
  let taken : ℚ := (n : ℚ)
  if taken > tokens + added then
    (sb, truncToZero (tokens + added), false)
  else
    ({ sb with elapsed := sb.elapsed + elapsed,
               added := sb.added + added,
               taken := sb.taken + taken },
     truncToZero ((sb.added + added) - (sb.taken + taken)), true)

/-- One step of `Bucket.Merge` (bucket.go): field-wise maximum of
`added`, `taken`, `elapsed`; `name` and `created` are untouched.
The Go loop skips `other == b` (pointer equality); merging a value with
itself is a no-op anyway, so the value-level model needs no skip. -/
def Bucket.mergeOne (b other : Bucket) : Bucket :=
  { b with added := max b.added other.added,
           taken := max b.taken other.taken,
           elapsed := max b.elapsed other.elapsed }

/-- Variadic `Bucket.Merge` (bucket.go): fold `mergeOne` over the others. -/
def Bucket.Merge (b : Bucket) (others : List Bucket) : Bucket :=
  others.foldl Bucket.mergeOne b

/-- An operation applied to a single bucket: a `Take` (with arbitrary time,
rate and count) or a `Merge` with another bucket. -/
inductive Op where
  | take (now : ℤ) (r : Rate) (n : ℕ)
  | merge (other : Bucket)

/-- Apply one operation to a bucket. -/
def applyOp (b : Bucket) : Op → Bucket
  | .take now r n => (Bucket.Take b now r n).1
  | .merge o => Bucket.mergeOne b o

/-- Apply a finite sequence of operations to a bucket. -/
def applyOps (b : Bucket) (ops : List Op) : Bucket :=
  ops.foldl applyOp b

/-! ## Wire format (bucket.go `MarshalBinary` / `UnmarshalBinary`)

`MarshalBinary` writes `Float64bits(added)`, `Float64bits(taken)`,
`uint64(elapsed)` big-endian, then `byte(len(name))`, then the raw name
bytes. Since `Float64bits`/`Float64frombits` (and `uint64`/`Duration`) are
mutually inverse bijections on 64-bit patterns, the wire layer is modelled
on the bit patterns directly. -/

/-- Wire-level view of a `Bucket`: the 64-bit patterns of `added`, `taken`
and `elapsed`, and the name as a byte list. `created` is not on the wire. -/
structure WireBucket where
  addedBits : ℕ
  takenBits : ℕ
  elapsedBits : ℕ
  name : List ℕ
deriving DecidableEq

/-- Errors of the wire layer: `ErrNameTooLarge` (bucket.go) and
`io.ErrShortBuffer`. -/
inductive WireError where
  | nameTooLarge
  | shortBuffer
deriving DecidableEq

/-- `binary.BigEndian.PutUint64`: the eight big-endian bytes of `n`. -/
def putUint64BE (n : ℕ) : List ℕ :=
  [n / 72057594037927936 % 256, n / 281474976710656 % 256,
   n / 1099511627776 % 256, n / 4294967296 % 256,
   n / 16777216 % 256, n / 65536 % 256, n / 256 % 256, n % 256]

/-- `binary.BigEndian.Uint64`: read the first eight bytes big-endian. -/
def getUint64BE : List ℕ → ℕ
  | b0 :: b1 :: b2 :: b3 :: b4 :: b5 :: b6 :: b7 :: _ =>
      ((((((b0 * 256 + b1) * 256 + b2) * 256 + b3) * 256 + b4) * 256 + b5)
        * 256 + b6) * 256 + b7
  | _ => 0

/-- The byte at offset 24 of a datagram (`data[24]`), read as `nameLen`. -/
def nameLenAt (d : List ℕ) : ℕ :=
  (d.drop 24).headD 0

/-- `maxBucketNameLength = bucketPacketSize - bucketFixedSize = 256 - 25`. -/
def maxBucketNameLength : ℕ := 231

/-- `Bucket.MarshalBinary` (bucket.go): fails with `ErrNameTooLarge` when
`len(name) > 231`; otherwise 8+8+8 big-endian words, `byte(len(name))`
(`byte` truncates mod 256; unreachable under the guard) and the name. -/
def WireBucket.MarshalBinary (b : WireBucket) : Except WireError (List ℕ) :=
  if maxBucketNameLength < b.name.length then .error .nameTooLarge
  else .ok (putUint64BE b.addedBits ++ (putUint64BE b.takenBits ++
            (putUint64BE b.elapsedBits ++ ([b.name.length % 256] ++ b.name))))

/-- `Bucket.UnmarshalBinary` (bucket.go): `io.ErrShortBuffer` when
`len(data) < 25`; reads the three words, `nameLen := data[24]`, then
`io.ErrShortBuffer` when `len(data[25:]) < nameLen`; else takes the name. -/
def WireBucket.UnmarshalBinary (d : List ℕ) : Except WireError WireBucket :=
  if d.length < 25 then .error .shortBuffer
  else if d.length - 25 < nameLenAt d then .error .shortBuffer
  else .ok { addedBits := getUint64BE d,
             takenBits := getUint64BE (d.drop 8),
             elapsedBits := getUint64BE (d.drop 16),
             name := (d.drop 25).take (nameLenAt d) }

/-! ## Repositories (repo.go) -/

/-- `LocalRepo` (repo.go): the name-keyed bucket map plus the injected
clock. The clock field holds the value `clock()` returns at the operation
being modelled. -/
structure LocalRepo where
  clock : ℤ
  buckets : String → Option Bucket

/-- `LocalRepo.GetBucket` (repo.go): return the stored bucket, or create
`&Bucket{name: name, created: r.clock()}`, insert and return it with
`ok = false`. -/
def LocalRepo.GetBucket (r : LocalRepo) (name : String) : Bucket × Bool × LocalRepo :=
  match r.buckets name with
  | some b => (b, true, r)
  | none =>
      let b : Bucket := { name := name, added := 0, taken := 0, elapsed := 0,
                          created := r.clock }
      (b, false, { r with buckets := fun k => if k = name then some b else r.buckets k })

/-- `LocalRepo.UpsertBucket` (repo.go): if absent, set `b.created = r.clock()`
(unconditionally), install and return `(b, false)`; if present, `prev.Merge(b)`
and return `(prev, true)`. The Go fast path for `prev == b` (same pointer)
skips the merge; since merging a value into itself changes nothing, the
value-level model needs no separate case. -/
def LocalRepo.UpsertBucket (r : LocalRepo) (b : Bucket) : Bucket × Bool × LocalRepo :=
  match r.buckets b.name with
  | none =>
      let b' := { b with created := r.clock }
      (b', false, { r with buckets := fun k => if k = b.name then some b' else r.buckets k })
  | some prev =>
      let m := Bucket.mergeOne prev b
      (m, true, { r with buckets := fun k => if k = b.name then some m else r.buckets k })

/-- One iteration of `ReplicatedRepo.Receive` (repo.go) after a datagram has
been unmarshalled into `remote`:
`local, ok := r.repo.GetBucket(ctx, remote.name)`; if the remote bucket is
not zero, `local.Merge(&remote)` (mutating the stored bucket in place);
otherwise a unicast reply or a drop, neither of which changes the store. -/
def receiveStep (r : LocalRepo) (remote : Bucket) : LocalRepo :=
  let res := r.GetBucket remote.name
  let loc := res.1
  let r' := res.2.2
  if remote.IsZero = false then
    { r' with buckets := fun k =>
        if k = remote.name then some (Bucket.mergeOne loc remote) else r'.buckets k }
  else r'

/-! ## Sample values used by the concrete instantiations below -/

/-- The rate `5:1s` used by the repository's own tests. -/
def rate5s : Rate := { Freq := 5, Per := 1000000000 }

/-- A freshly created bucket (all counters zero). -/
def bfresh0 : Bucket := { name := "x", added := 0, taken := 0, elapsed := 0, created := 0 }

/-- A bucket holding 10 tokens, more than `rate5s`'s capacity of 5
(reachable, e.g., after a `Take` at `Freq = 10` or after a `Merge`). -/
def bTen : Bucket := { name := "x", added := 10, taken := 0, elapsed := 0, created := 0 }

/-- A bucket with `added = 0` but `taken = 3` (reachable by merging in a
peer state with larger `taken`). -/
def bSeed : Bucket := { name := "x", added := 0, taken := 3, elapsed := 0, created := 0 }

/-- An empty local repository whose clock reads 7. -/
def repo0 : LocalRepo := { clock := 7, buckets := fun _ => none }

/-- A bucket carrying a non-zero `created` timestamp. -/
def bC9 : Bucket := { name := "a", added := 1, taken := 0, elapsed := 0, created := 5 }

/-- A zero-valued bucket as carried by an incast request datagram. -/
def bZ : Bucket := { name := "z", added := 0, taken := 0, elapsed := 0, created := 0 }

/-- A small wire-level bucket. -/
def wb0 : WireBucket := { addedBits := 12, takenBits := 34, elapsedBits := 56, name := [97, 98] }

/-! ## Helper lemmas -/

theorem lastTake_le (b : Bucket) (now : ℤ) : b.lastTake now ≤ now := by
  unfold Bucket.lastTake
  split_ifs with h
  · exact le_refl _
  · omega

theorem seeded_fields (b : Bucket) (r : Rate) :
    (b.seeded r).taken = b.taken ∧ (b.seeded r).elapsed = b.elapsed ∧
    (b.seeded r).name = b.name ∧ (b.seeded r).created = b.created := by
  unfold Bucket.seeded
  split_ifs <;> simp

theorem refill_le (b : Bucket) (now : ℤ) (r : Rate) :
    b.refill now r ≤ (r.Freq : ℚ) - (b.added - b.taken) := by
  simp only [Bucket.refill]
  split_ifs with h
  · exact le_refl _
  · exact le_of_not_lt h

theorem take_taken_le (b : Bucket) (now : ℤ) (r : Rate) (n : ℕ) :
    b.taken ≤ (Bucket.Take b now r n).1.taken := by
  have hs := (seeded_fields b r).1
  simp only [Bucket.Take]
  split_ifs with hc
  · simp [hs]
  · simp only
    rw [hs]
    simp

theorem take_elapsed_le (b : Bucket) (now : ℤ) (r : Rate) (n : ℕ) :
    b.elapsed ≤ (Bucket.Take b now r n).1.elapsed := by
  have hs := (seeded_fields b r).2.1
  have hl := lastTake_le (b.seeded r) now
  simp only [Bucket.Take]
  split_ifs with hc
  · simp [hs]
  · simp only
    rw [hs]
    omega

theorem applyOp_mono (b : Bucket) (op : Op) :
    b.taken ≤ (applyOp b op).taken ∧ b.elapsed ≤ (applyOp b op).elapsed := by
  cases op with
  | take now r n => exact ⟨take_taken_le b now r n, take_elapsed_le b now r n⟩
  | merge o =>
      constructor
      · simp only [applyOp, Bucket.mergeOne]
        exact le_max_left _ _
      · simp only [applyOp, Bucket.mergeOne]
        exact le_max_left _ _

theorem getUint64BE_put (n : ℕ) (h : n < 18446744073709551616) (rest : List ℕ) :
    getUint64BE (putUint64BE n ++ rest) = n := by
  simp only [putUint64BE, List.cons_append, List.nil_append, getUint64BE]
  omega

theorem drop8_put (n : ℕ) (rest : List ℕ) :
    (putUint64BE n ++ rest).drop 8 = rest := rfl

theorem drop16_put (n m : ℕ) (rest : List ℕ) :
    (putUint64BE n ++ (putUint64BE m ++ rest)).drop 16 = rest := rfl

theorem drop25_put (n m k x : ℕ) (rest : List ℕ) :
    (putUint64BE n ++ (putUint64BE m ++ (putUint64BE k ++ ([x] ++ rest)))).drop 25 = rest := rfl

theorem length_put (n : ℕ) : (putUint64BE n).length = 8 := rfl

/-! ## Claim theorems -/

/-- Claim C1, counterexample: a single admitted `Take` at rate `5:1s` on a
bucket holding 10 tokens (more than the capacity 5 implied by the rate)
decreases the `added` field from 10 to 5, refuting the claim that `added`
is non-decreasing across every sequence of `Take` and `Merge` operations. -/
theorem take_decreases_added_cex :
    (applyOps bTen [Op.take 0 rate5s 0]).added < bTen.added ∧
    (Bucket.Take bTen 0 rate5s 0).2.2 = true := by
  norm_num [applyOps, applyOp, Bucket.Take, Bucket.seeded, Bucket.refill,
    Bucket.lastTake, Rate.Tokens, Rate.IsZero, Rate.Interval, bTen, rate5s]

/-- Claim C1, amended: across every finite sequence of `Take` and `Merge`
operations (arbitrary times, rates and counts), the `taken` and `elapsed`
fields are non-decreasing; `added` is not (see the counterexample: an
admitted `Take` whose rate capacity is below the current token count
decreases `added` by the excess). -/
theorem take_merge_taken_elapsed_mono (b : Bucket) (ops : List Op) :
    b.taken ≤ (applyOps b ops).taken ∧ b.elapsed ≤ (applyOps b ops).elapsed := by
  induction ops generalizing b with
  | nil => simp [applyOps]
  | cons op rest ih =>
      have h1 := applyOp_mono b op
      have h2 := ih (applyOp b op)
      simp only [applyOps, List.foldl_cons] at h2 ⊢
      exact ⟨le_trans h1.1 h2.1, le_trans h1.2 h2.2⟩

/-- Claim C2, counterexample: `Take(0, 5:1s, 10)` on a fresh bucket
(`added = 0`) is denied, yet the seed step has mutated `added` from 0 to 5,
refuting the claim that a denied `Take` leaves every field exactly as it
was before the call. -/
theorem take_deny_mutates_cex :
    (Bucket.Take bfresh0 0 rate5s 10).2.2 = false ∧
    bfresh0.added = 0 ∧
    (Bucket.Take bfresh0 0 rate5s 10).1.added = 5 := by
  norm_num [Bucket.Take, Bucket.seeded, Bucket.refill, Bucket.lastTake,
    Rate.Tokens, Rate.IsZero, Rate.Interval, bfresh0, rate5s]

/-- Claim C2, amended: a denied `Take(now, rate, n)` returns the
truncation of `tokens + refill` (computed after the seed step; equal to the
floor whenever that quantity is non-negative) together with
`admitted = false`, and leaves `taken`, `elapsed`, `name` and `created`
unchanged; `added` is unchanged unless it was 0, in which case the seed
step has set it to `rate.Freq`. -/
theorem take_deny_state (b : Bucket) (now : ℤ) (r : Rate) (n : ℕ)
    (hd : (Bucket.Take b now r n).2.2 = false) :
    (Bucket.Take b now r n).1 = b.seeded r ∧
    (Bucket.Take b now r n).1.taken = b.taken ∧
    (Bucket.Take b now r n).1.elapsed = b.elapsed ∧
    (Bucket.Take b now r n).1.name = b.name ∧
    (Bucket.Take b now r n).1.created = b.created ∧
    (b.added ≠ 0 → (Bucket.Take b now r n).1.added = b.added) ∧
    (b.added = 0 → (Bucket.Take b now r n).1.added = (r.Freq : ℚ)) ∧
    (Bucket.Take b now r n).2.1 =
      truncToZero (((b.seeded r).added - (b.seeded r).taken) +
        (b.seeded r).refill now r) := by
  have hf := seeded_fields b r
  simp only [Bucket.Take] at hd ⊢
  split_ifs at hd ⊢ with hc
  · refine ⟨rfl, hf.1, hf.2.1, hf.2.2.1, hf.2.2.2, ?_, ?_, rfl⟩
    · intro h
      simp [Bucket.seeded, h]
    · intro h
      simp [Bucket.seeded, h]

/-- Claim C2, witness: the concrete denied call `Take(0, 5:1s, 10)` on a
fresh bucket leaves `taken` and `created` unchanged. -/
theorem take_deny_state_witness :
    (Bucket.Take bfresh0 0 rate5s 10).1.taken = bfresh0.taken ∧
    (Bucket.Take bfresh0 0 rate5s 10).1.created = bfresh0.created :=
  ⟨(take_deny_state bfresh0 0 rate5s 10 (by
      norm_num [Bucket.Take, Bucket.seeded, Bucket.refill, Bucket.lastTake,
        Rate.Tokens, Rate.IsZero, Rate.Interval, bfresh0, rate5s])).2.1,
   (take_deny_state bfresh0 0 rate5s 10 (by
      norm_num [Bucket.Take, Bucket.seeded, Bucket.refill, Bucket.lastTake,
        Rate.Tokens, Rate.IsZero, Rate.Interval, bfresh0, rate5s])).2.2.2.2.1⟩

/-- Claim C3: for every bucket state with `taken ≤ added`, an admitted
`Take(now, r, n)` leaves `added − taken ≤ r.Freq` (over the rationals),
however large `added − taken` was before the call. -/
theorem take_admit_caps_tokens (b : Bucket) (now : ℤ) (r : Rate) (n : ℕ)
    (hbt : b.taken ≤ b.added) (hok : (Bucket.Take b now r n).2.2 = true) :
    (Bucket.Take b now r n).1.added - (Bucket.Take b now r n).1.taken
      ≤ (r.Freq : ℚ) := by
  have hr := refill_le (b.seeded r) now r
  have hn : (0 : ℚ) ≤ (n : ℚ) := Nat.cast_nonneg n
  simp only [Bucket.Take] at hok ⊢
  split_ifs at hok ⊢ with hc
  simp only
  linarith

/-- Claim C3, witness: the concrete admitted call `Take(0, 5:1s, 1)` on a
fresh bucket leaves `added − taken = 4 ≤ 5`. -/
theorem take_admit_caps_tokens_witness :
    (Bucket.Take bfresh0 0 rate5s 1).1.added - (Bucket.Take bfresh0 0 rate5s 1).1.taken
      ≤ ((rate5s.Freq : ℤ) : ℚ) :=
  take_admit_caps_tokens bfresh0 0 rate5s 1 (by norm_num [bfresh0]) (by
    norm_num [Bucket.Take, Bucket.seeded, Bucket.refill, Bucket.lastTake,
      Rate.Tokens, Rate.IsZero, Rate.Interval, bfresh0, rate5s])

/-- Claim C7, counterexample: a bucket with `added = 0` and `taken = 3 ≠ 0`
IS re-seeded to the full capacity `rate.Freq = 5` by `Take` (observed on
the denied call `Take(0, 5:1s, 10)`), refuting the claim that the seed
step requires the bucket to never have been taken from. -/
theorem take_seed_despite_taken_cex :
    bSeed.added = 0 ∧ bSeed.taken = 3 ∧
    (Bucket.Take bSeed 0 rate5s 10).2.2 = false ∧
    (Bucket.Take bSeed 0 rate5s 10).1.added = (rate5s.Freq : ℚ) := by
  norm_num [Bucket.Take, Bucket.seeded, Bucket.refill, Bucket.lastTake,
    Rate.Tokens, Rate.IsZero, Rate.Interval, bSeed, rate5s]

/-- Claim C7, amended: the seed step of `Take(now, rate, n)` sets
`added := rate.Freq` exactly when `added == 0`, irrespective of `taken`:
the post-state `added` is the seeded value (`rate.Freq` when `added = 0`,
the old `added` otherwise) plus the capped refill when admitted and plus
nothing when denied. -/
theorem take_seed_added_eq (b : Bucket) (now : ℤ) (r : Rate) (n : ℕ) :
    (Bucket.Take b now r n).1.added =
      (if b.added = 0 then (r.Freq : ℚ) else b.added) +
      (if (Bucket.Take b now r n).2.2 = true then (b.seeded r).refill now r else 0) := by
  by_cases ha : b.added = 0
  · have hsa : (b.seeded r).added = (r.Freq : ℚ) := by simp [Bucket.seeded, ha]
    rw [if_pos ha]
    by_cases hv : (Bucket.Take b now r n).2.2 = true
    · rw [if_pos hv]
      simp only [Bucket.Take] at hv ⊢
      split_ifs at hv ⊢ with hc
      simp [hsa]
    · rw [if_neg hv]
      simp only [Bucket.Take] at hv ⊢
      split_ifs at hv ⊢ with hc
      · simp [hsa]
      · exact absurd rfl hv
  · have hsa : (b.seeded r).added = b.added := by simp [Bucket.seeded, ha]
    rw [if_neg ha]
    by_cases hv : (Bucket.Take b now r n).2.2 = true
    · rw [if_pos hv]
      simp only [Bucket.Take] at hv ⊢
      split_ifs at hv ⊢ with hc
      simp [hsa]
    · rw [if_neg hv]
      simp only [Bucket.Take] at hv ⊢
      split_ifs at hv ⊢ with hc
      · simp [hsa]
      · exact absurd rfl hv

/-- Claim C5: for every wire bucket with 64-bit field patterns and
`len(name) ≤ 231`, `MarshalBinary` succeeds and `UnmarshalBinary` of its
output succeeds and returns a bucket with the same `name`, `added`, `taken`
and `elapsed`; `created` is not on the wire (it is absent from the wire
model altogether). -/
theorem marshal_roundtrip (b : WireBucket)
    (ha : b.addedBits < 18446744073709551616)
    (ht : b.takenBits < 18446744073709551616)
    (he : b.elapsedBits < 18446744073709551616)
    (hn : b.name.length ≤ 231) :
    ∃ d, WireBucket.MarshalBinary b = Except.ok d ∧
         WireBucket.UnmarshalBinary d = Except.ok b := by
  obtain ⟨ba, bt, be, nm⟩ := b
  simp only at ha ht he hn
  refine ⟨putUint64BE ba ++ (putUint64BE bt ++ (putUint64BE be ++
            ([nm.length % 256] ++ nm))), ?_, ?_⟩
  · simp only [WireBucket.MarshalBinary, maxBucketNameLength]
    rw [if_neg (by omega)]
  · have hnl : nameLenAt (putUint64BE ba ++ (putUint64BE bt ++ (putUint64BE be ++
        ([nm.length % 256] ++ nm)))) = nm.length % 256 := rfl
    have hlen : (putUint64BE ba ++ (putUint64BE bt ++ (putUint64BE be ++
        ([nm.length % 256] ++ nm)))).length = 25 + nm.length := by
      simp [putUint64BE]
      omega
    have hmod : nm.length % 256 = nm.length := Nat.mod_eq_of_lt (by omega)
    simp only [WireBucket.UnmarshalBinary]
    rw [hnl, hlen]
    rw [if_neg (by omega), if_neg (by omega)]
    rw [getUint64BE_put ba ha]
    rw [drop8_put, getUint64BE_put bt ht]
    rw [drop16_put, getUint64BE_put be he]
    rw [drop25_put, hmod, List.take_length]

/-- Claim C5, witness: the concrete round-trip on `wb0`. -/
theorem marshal_roundtrip_witness :
    ∃ d, WireBucket.MarshalBinary wb0 = Except.ok d ∧
         WireBucket.UnmarshalBinary d = Except.ok wb0 :=
  marshal_roundtrip wb0 (by decide) (by decide) (by decide) (by decide)

/-- Claim C6: `MarshalBinary` fails, with the name-too-large error, exactly
when `len(name) > 231`; `UnmarshalBinary` fails, with the short-buffer
error, exactly when the input is shorter than 25 bytes or shorter than
`25 + nameLen` bytes, where `nameLen` is the byte at offset 24. -/
theorem marshal_unmarshal_errors (b : WireBucket) (d : List ℕ) :
    (WireBucket.MarshalBinary b = Except.error WireError.nameTooLarge ↔
       231 < b.name.length) ∧
    ((∃ out, WireBucket.MarshalBinary b = Except.ok out) ↔ b.name.length ≤ 231) ∧
    (WireBucket.UnmarshalBinary d = Except.error WireError.shortBuffer ↔
       (d.length < 25 ∨ d.length - 25 < nameLenAt d)) ∧
    ((∃ wb, WireBucket.UnmarshalBinary d = Except.ok wb) ↔
       ¬(d.length < 25 ∨ d.length - 25 < nameLenAt d)) := by
  simp only [WireBucket.MarshalBinary, WireBucket.UnmarshalBinary, maxBucketNameLength]
  refine ⟨?_, ?_, ?_, ?_⟩ <;> split_ifs with h1 h2 <;> simp_all

/-- Claim C6, witness: a one-byte datagram is rejected as a short buffer,
and a 231-byte name still marshals. -/
theorem marshal_unmarshal_errors_witness :
    WireBucket.UnmarshalBinary [0] = Except.error WireError.shortBuffer :=
  (marshal_unmarshal_errors wb0 [0]).2.2.1.mpr (by decide)

/-- Claim C4: `mergeOne` (one step of `Merge`) is associative (as full
bucket states), commutative and idempotent on the replicated triple
(`added`, `taken`, `elapsed`); merging a bucket with itself is a no-op
(also through the variadic `Merge`); and the merged result keeps the
receiver's `name` and `created` untouched (the argument bucket is only
read, never returned). -/
theorem merge_crdt_laws (a b c : Bucket) :
    Bucket.mergeOne (Bucket.mergeOne a b) c = Bucket.mergeOne a (Bucket.mergeOne b c) ∧
    ((Bucket.mergeOne a b).added = (Bucket.mergeOne b a).added ∧
     (Bucket.mergeOne a b).taken = (Bucket.mergeOne b a).taken ∧
     (Bucket.mergeOne a b).elapsed = (Bucket.mergeOne b a).elapsed) ∧
    Bucket.mergeOne (Bucket.mergeOne a b) b = Bucket.mergeOne a b ∧
    Bucket.mergeOne a a = a ∧
    Bucket.Merge a [a] = a ∧
    (Bucket.mergeOne a b).name = a.name ∧
    (Bucket.mergeOne a b).created = a.created := by
  refine ⟨?_, ⟨?_, ?_, ?_⟩, ?_, ?_, ?_, rfl, rfl⟩
  · simp [Bucket.mergeOne, max_assoc]
  · simp only [Bucket.mergeOne]
    exact max_comm _ _
  · simp only [Bucket.mergeOne]
    exact max_comm _ _
  · simp only [Bucket.mergeOne]
    exact max_comm _ _
  · simp [Bucket.mergeOne, max_assoc]
  · simp [Bucket.mergeOne]
  · simp [Bucket.Merge, Bucket.mergeOne]

/-- Claim C8: code evaluated at the failing input. The rate `{Freq := 5,
Per := 0}` is zero (`IsZero = true`), yet `Take(0, rate, 1)` on a fresh
bucket is admitted and `added` changes from 0 to 5 — contradicting the
claim (and the code's own comment "A zero Rate allows no events"). -/
theorem zero_rate_take_admits :
    Rate.IsZero { Freq := 5, Per := 0 } = true ∧
    (Bucket.Take bfresh0 0 { Freq := 5, Per := 0 } 1).2.2 = true ∧
    (Bucket.Take bfresh0 0 { Freq := 5, Per := 0 } 1).1.added = 5 ∧
    bfresh0.added = 0 := by
  norm_num [Bucket.Take, Bucket.seeded, Bucket.refill, Bucket.lastTake,
    Rate.Tokens, Rate.IsZero, Rate.Interval, bfresh0]

/-- Claim C9, counterexample: upserting a bucket whose `created` is the
non-zero value 5 into an empty store whose clock reads 7 installs it with
`created = 7`: the non-zero `created` is NOT preserved, refuting the
"set from the clock only if it was unset" part of the claim. -/
theorem upsert_overwrites_created_cex :
    bC9.created = 5 ∧ bC9.created ≠ 0 ∧
    (repo0.UpsertBucket bC9).2.1 = false ∧
    (repo0.UpsertBucket bC9).1.created = 7 := by
  refine ⟨rfl, by decide, ?_, ?_⟩ <;>
    simp [LocalRepo.UpsertBucket, repo0, bC9]

/-- Claim C9, amended: `UpsertBucket(b)` with no bucket named `b.name`
present installs `b` with `created` set from the clock unconditionally
(overwriting any previous value, unset or not) and returns it with
`existed = false`; with a stored bucket `prev` present it merges `b` into
`prev` and returns `(prev merged with b, true)`; in both cases the
returned bucket is what a subsequent lookup of `b.name` finds. -/
theorem upsert_spec (r : LocalRepo) (b : Bucket) :
    ((r.UpsertBucket b).2.1 = true ↔ (r.buckets b.name).isSome = true) ∧
    (r.UpsertBucket b).2.2.buckets b.name = some (r.UpsertBucket b).1 ∧
    (r.buckets b.name = none →
      (r.UpsertBucket b).1 = { b with created := r.clock }) ∧
    (∀ prev, r.buckets b.name = some prev →
      (r.UpsertBucket b).1 = Bucket.mergeOne prev b) := by
  rcases h : r.buckets b.name with _ | prev <;>
    simp [LocalRepo.UpsertBucket, h]

/-- Claim C9, witness: upserting `bC9` into the empty store installs it
with `created` taken from the clock. -/
theorem upsert_spec_witness :
    (repo0.UpsertBucket bC9).1 = { bC9 with created := repo0.clock } :=
  (upsert_spec repo0 bC9).2.2.1 rfl

/-- Claim C10: every datagram processed by the receive loop — in
particular an all-zero incast request naming a bucket the node has never
seen — leaves a bucket with that name present in the local store, with
`created` set from the local clock when it was absent before; the "drop"
of a zero-valued datagram for an absent bucket still inserts the name. -/
theorem receive_creates (r : LocalRepo) (remote : Bucket) :
    ((receiveStep r remote).buckets remote.name).isSome = true ∧
    (r.buckets remote.name = none →
      ∃ sb, (receiveStep r remote).buckets remote.name = some sb ∧
        sb.name = remote.name ∧ sb.created = r.clock) := by
  rcases h : r.buckets remote.name with _ | prev <;>
    simp only [receiveStep, LocalRepo.GetBucket, h] <;>
    split_ifs <;>
    simp [Bucket.mergeOne, h]

/-- Claim C10, witness: receiving the zero-valued incast datagram `bZ` for
the absent name "z" inserts a bucket named "z" with `created = 7`. -/
theorem receive_creates_witness :
    ∃ sb, (receiveStep repo0 bZ).buckets bZ.name = some sb ∧
      sb.name = bZ.name ∧ sb.created = repo0.clock :=
  (receive_creates repo0 bZ).2 rfl

end Patrol
